import Mathlib

/-!
Verification development for the PLASMA tile kernels in this repository:
the LQ-factorization tile kernel CORE_ztslqt (argument validation and quick
return), the band-to-descriptor layout converter plasma_pzpb2desc (sequence
guard, per-column tile-row ranges, band addressing), and the ZSTEVX2
validation harness (Kahan test matrix construction, eigenvector threshold
loop, eigenvector-verification access pattern).

Machine integers are modelled as Int with C truncated division (Int.tdiv);
real-valued quantities are modelled as exact reals or rationals.
-/

/-! ## CORE_ztslqt: argument validation and quick return -/

/-- Control-flow outcome of the prelude of CORE_ztslqt: which validation
check fires, whether the quick return is taken, or whether the
factorization loop runs. -/
inductive ZtslqtOutcome where
  | errM | errN | errIB | errLDA2 | quickReturn | factorize
deriving DecidableEq

/-- The argument checks and the quick return of CORE_ztslqt, translated in
source order: m < 0, n < 0, ib < 0, then (lda2 < imax(1,m)) && (m > 0),
then the quick return for m == 0 || n == 0 || ib == 0.  The source reads
neither lda1 nor ldt in this prelude; they are kept as parameters to match
the C signature. -/
def ztslqtOutcome (m n ib _lda1 lda2 _ldt : Int) : ZtslqtOutcome :=
  if m < 0 then ZtslqtOutcome.errM
  else if n < 0 then ZtslqtOutcome.errN
  else if ib < 0 then ZtslqtOutcome.errIB
  else if lda2 < max 1 m ∧ 0 < m then ZtslqtOutcome.errLDA2
  else if m = 0 ∨ n = 0 ∨ ib = 0 then ZtslqtOutcome.quickReturn
  else ZtslqtOutcome.factorize

/-- Whether CORE_ztslqt reports an invalid argument (calls plasma_error and
returns) for the given arguments. -/
def ztslqtReportsError (m n ib lda1 lda2 ldt : Int) : Bool :=
  match ztslqtOutcome m n ib lda1 lda2 ldt with
  | ZtslqtOutcome.errM => true
  | ZtslqtOutcome.errN => true
  | ZtslqtOutcome.errIB => true
  | ZtslqtOutcome.errLDA2 => true
  | _ => false

/-- CORE_ztslqt as a state transformer on the memory holding A1, A2, T and
the scratch arrays.  The validation prelude and the quick return are
translated exactly from the source; the blocked factorization loop (whose
writes go through external BLAS/LAPACK primitives on machine doubles) is
abstracted as the transformer `body`, which runs exactly when the prelude
falls through to the loop. -/
def CORE_ztslqt {α : Type} (m n ib lda1 lda2 ldt : Int)
    (body : α → α) (s : α) : α :=
  match ztslqtOutcome m n ib lda1 lda2 ldt with
  | ZtslqtOutcome.factorize => body s
  | _ => s

/-! ## Theorems for claims C1 and C3 -/

/-- Claim C1, counterexample: at m = 1, n = 1, ib = 1, lda1 = 0, lda2 = 1,
ldt = 1 the stride lda1 is below max(1,m) = 1, yet CORE_ztslqt reports no
error and proceeds into the factorization loop (which mutates A1, A2, T),
contradicting the claim that any stride below max(1,m) yields
InvalidArgument with an early return before any write. -/
theorem ztslqt_lda1_unchecked :
    ztslqtReportsError 1 1 1 0 1 1 = false ∧
    ztslqtOutcome 1 1 1 0 1 1 = ZtslqtOutcome.factorize := by
  constructor <;> decide

/-- Claim C1, amended: CORE_ztslqt reports InvalidArgument exactly for
negative m, negative n, negative ib, or lda2 below max(1,m) when m > 0
(lda1 and ldt are never validated), and whenever it reports an error it
returns before the factorization loop, leaving the state unchanged. -/
theorem ztslqt_validation (m n ib lda1 lda2 ldt : Int) :
    (ztslqtReportsError m n ib lda1 lda2 ldt = true ↔
      m < 0 ∨ n < 0 ∨ ib < 0 ∨ (0 < m ∧ lda2 < max 1 m)) ∧
    (ztslqtReportsError m n ib lda1 lda2 ldt = true →
      ∀ (α : Type) (body : α → α) (s : α),
        CORE_ztslqt m n ib lda1 lda2 ldt body s = s) := by
  constructor
  · have hmax : (lda2 < max 1 m) ↔ (lda2 < 1 ∨ lda2 < m) := lt_max_iff
    unfold ztslqtReportsError ztslqtOutcome
    split_ifs with h1 h2 h3 h4 h5 <;> simp_all <;> omega
  · intro herr α body s
    unfold CORE_ztslqt
    unfold ztslqtReportsError at herr
    rcases hout : ztslqtOutcome m n ib lda1 lda2 ldt <;>
      simp [hout] at herr ⊢

/-- Witness for ztslqt_validation at m = -1: the error is reported and a
concrete state is left unchanged. -/
theorem ztslqt_validation_witness :
    ztslqtReportsError (-1) 0 0 1 1 1 = true ∧
    CORE_ztslqt (-1) 0 0 1 1 1 (fun s : Nat => s + 1) 7 = 7 := by
  refine ⟨by decide, ?_⟩
  exact (ztslqt_validation (-1) 0 0 1 1 1).2 (by decide) Nat (fun s => s + 1) 7

/-- Claim C3: with non-negative m, n, ib and all strides at least max(1,m),
a call with m = 0, n = 0, or ib = 0 takes the quick return: no error is
reported and the state (A1, A2, T) is left unchanged, with no allocation
(CORE_ztslqt allocates nothing on this path). -/
theorem ztslqt_quick_return (m n ib lda1 lda2 ldt : Int)
    (hm : 0 ≤ m) (hn : 0 ≤ n) (hib : 0 ≤ ib)
    (_hl1 : max 1 m ≤ lda1) (hl2 : max 1 m ≤ lda2) (_hl3 : max 1 m ≤ ldt)
    (h0 : m = 0 ∨ n = 0 ∨ ib = 0) :
    ztslqtOutcome m n ib lda1 lda2 ldt = ZtslqtOutcome.quickReturn ∧
    ztslqtReportsError m n ib lda1 lda2 ldt = false ∧
    ∀ (α : Type) (body : α → α) (s : α),
      CORE_ztslqt m n ib lda1 lda2 ldt body s = s := by
  have hout : ztslqtOutcome m n ib lda1 lda2 ldt = ZtslqtOutcome.quickReturn := by
    unfold ztslqtOutcome
    split_ifs with h1 h2 h3 h4 <;> first | rfl | omega
  refine ⟨hout, ?_, ?_⟩
  · unfold ztslqtReportsError
    rw [hout]
  · intro α body s
    unfold CORE_ztslqt
    rw [hout]

/-- Witness for ztslqt_quick_return at m = 0, n = 1, ib = 1, all strides 1:
the quick return is taken and a concrete state is unchanged. -/
theorem ztslqt_quick_return_witness :
    ztslqtOutcome 0 1 1 1 1 1 = ZtslqtOutcome.quickReturn ∧
    CORE_ztslqt 0 1 1 1 1 1 (fun s : Nat => s + 1) 7 = 7 := by
  have h := ztslqt_quick_return 0 1 1 1 1 1 (by decide) (by decide) (by decide)
    (by decide) (by decide) (by decide) (Or.inl rfl)
  exact ⟨h.1, h.2.2 Nat (fun s => s + 1) 7⟩

/-! ## plasma_pzpb2desc: band storage to tile descriptor conversion -/

/-- Shape tag of the band descriptor (PlasmaGeneral / PlasmaUpper /
PlasmaLower). -/
inductive BandUplo where
  | general | upper | lower
deriving DecidableEq

/-- The fields of the band tile descriptor plasma_desc_t that
plasma_pzpb2desc reads: matrix dimensions m, n; tile dimensions mb, nb;
band widths kl, ku; number of tile columns nt; shape tag uplo. -/
structure BandDesc where
  uplo : BandUplo
  m : Int
  n : Int
  mb : Int
  nb : Int
  kl : Int
  ku : Int
  nt : Int

/-- One copy-and-reshape task submitted by the converter for tile (m, n):
the tile indices, the clipped extents passed to the copy kernel, and the
offset into the band source buffer computed by the bandA macro. -/
structure CopyTask where
  m : Int
  n : Int
  mb : Int
  nb : Int
  srcOff : Int
deriving DecidableEq

/-- The bandA macro: offset of tile (m, n) inside the band-compressed
source buffer pA with leading dimension lda, translated from
lda*(A.nb*n) + (A.uplo == PlasmaUpper ? A.ku : 0) + A.mb*(m-n). -/
def bandA_offset (lda : Int) (A : BandDesc) (m n : Int) : Int :=
  lda * (A.nb * n) + (if A.uplo = BandUplo.upper then A.ku else 0) + A.mb * (m - n)

/-- The per-tile-column row range (m_start, m_end) computed by
plasma_pzpb2desc, translated branch by branch; C integer division
truncates toward zero, which is Int.tdiv. -/
def rowRange (A : BandDesc) (n : Int) : Int × Int :=
  match A.uplo with
  | BandUplo.general =>
      ((max 0 (n * A.nb - A.ku - A.kl)).tdiv A.nb,
       (min (A.m - 1) ((n + 1) * A.nb + A.kl - 1)).tdiv A.nb)
  | BandUplo.upper =>
      ((max 0 (n * A.nb - A.ku)).tdiv A.nb,
       (min (A.m - 1) ((n + 1) * A.nb - 1)).tdiv A.nb)
  | BandUplo.lower =>
      ((max 0 (n * A.nb)).tdiv A.nb,
       (min (A.m - 1) ((n + 1) * A.nb + A.kl - 1)).tdiv A.nb)


/-- The increasing list of integers from lo to hi inclusive (empty when
hi < lo); the iteration space of a C for-loop from lo while ≤ hi. -/
def intRange (lo hi : Int) : List Int :=
  (List.range (hi + 1 - lo).toNat).map (fun k : Nat => lo + (k : Int))

/-- Membership in intRange is the pair of bounds. -/
theorem mem_intRange {lo hi x : Int} : x ∈ intRange lo hi ↔ lo ≤ x ∧ x ≤ hi := by
  unfold intRange
  rw [List.mem_map]
  constructor
  · rintro ⟨k, hk, hkx⟩
    rw [List.mem_range] at hk
    omega
  · rintro ⟨h1, h2⟩
    refine ⟨(x - lo).toNat, ?_, ?_⟩
    · rw [List.mem_range]; omega
    · omega

/-- The list of copy tasks submitted by the tile-column / tile-row double
loop of plasma_pzpb2desc, in submission order: for each tile column n in
[0, A.nt) and each tile row m in [m_start, m_end], one task with extents
imin(A.mb, A.m - m*A.mb) by imin(A.nb, A.n - n*A.nb) and source offset
bandA(m, n). -/
def pzpb2descTasks (lda : Int) (A : BandDesc) : List CopyTask :=
  (intRange 0 (A.nt - 1)).flatMap fun n =>
    (intRange (rowRange A n).1 (rowRange A n).2).map fun m =>
      { m := m,
        n := n,
        mb := min A.mb (A.m - m * A.mb),
        nb := min A.nb (A.n - n * A.nb),
        srcOff := bandA_offset lda A m n }

/-- PLASMA status codes used by the converter.  PlasmaSuccess is 0. -/
def PlasmaSuccess : Int := 0

/-- The PlasmaErrorSequence error code; its concrete value only matters in
being distinct from PlasmaSuccess. -/
def PlasmaErrorSequence : Int := -102

/-- A plasma_sequence_t: the shared status cell of a task sequence. -/
structure PlasmaSeq where
  status : Int

/-- A plasma_request_t: the per-request status record. -/
structure PlasmaReq where
  status : Int

/-- Modelled from the spec: plasma_request_fail is code of this repository
not under src/ (only its caller plasma_pzpb2desc is).  Per the spec's
Sequence/Request status channel, both cells are "written on first failure,
never reset mid-operation": the error code is recorded only in a cell that
still holds PlasmaSuccess. -/
def plasma_request_fail (seq : PlasmaSeq) (req : PlasmaReq) (err : Int) :
    PlasmaSeq × PlasmaReq :=
  (if seq.status = PlasmaSuccess then { status := err } else seq,
   if req.status = PlasmaSuccess then { status := err } else req)

/-- plasma_pzpb2desc: check the sequence status; on prior failure call
plasma_request_fail with PlasmaErrorSequence and return without submitting
any task; otherwise submit the copy task for every tile intersecting the
band.  Returns the final sequence, request, and the submitted task list. -/
def plasma_pzpb2desc (lda : Int) (A : BandDesc) (seq : PlasmaSeq) (req : PlasmaReq) :
    PlasmaSeq × PlasmaReq × List CopyTask :=
  if seq.status ≠ PlasmaSuccess then
    let fr := plasma_request_fail seq req PlasmaErrorSequence
    (fr.1, fr.2, [])
  else
    (seq, req, pzpb2descTasks lda A)

/-- Membership in the converter's task list, characterized by the row-range
bounds: a task is submitted exactly for tile coordinates with 0 ≤ n < nt
and m_start ≤ m ≤ m_end, with the clipped extents and the bandA source
offset. -/
theorem mem_pzpb2descTasks (lda : Int) (A : BandDesc) (t : CopyTask) :
    t ∈ pzpb2descTasks lda A ↔
      0 ≤ t.n ∧ t.n < A.nt ∧
      (rowRange A t.n).1 ≤ t.m ∧ t.m ≤ (rowRange A t.n).2 ∧
      t.mb = min A.mb (A.m - t.m * A.mb) ∧
      t.nb = min A.nb (A.n - t.n * A.nb) ∧
      t.srcOff = bandA_offset lda A t.m t.n := by
  unfold pzpb2descTasks
  simp only [List.mem_flatMap, List.mem_map, mem_intRange]
  constructor
  · rintro ⟨n, ⟨hn0, hn1⟩, m, ⟨hm0, hm1⟩, rfl⟩
    have hnlt : n < A.nt := by omega
    exact ⟨hn0, hnlt, hm0, hm1, rfl, rfl, rfl⟩
  · rintro ⟨hn0, hnt, hms, hme, hmb, hnb, hoff⟩
    have hnle : t.n ≤ A.nt - 1 := by omega
    refine ⟨t.n, ⟨hn0, hnle⟩, t.m, ⟨hms, hme⟩, ?_⟩
    cases t with
  | mk tm tn tmb tnb tso =>
      simp only at hmb hnb hoff
      simp only [CopyTask.mk.injEq, and_true, true_and, eq_self_iff_true]
      exact ⟨hmb.symm, hnb.symm, hoff.symm⟩

/-- The spec's band-addressing formula, written from the spec's words:
offset = stride×(NB×n) + (upper ? KU : 0) + MB×(m−n). -/
def specBandOffset (stride NB KU MB : Int) (upper : Bool) (m n : Int) : Int :=
  stride * (NB * n) + (if upper then KU else 0) + MB * (m - n)

/-- For nonnegative n and positive nb, the lower-shape m_start expression
imax(0, n*nb)/nb collapses to n. -/
theorem lower_mstart_eq (nb n : Int) (hnb : 0 < nb) (hn : 0 ≤ n) :
    (max 0 (n * nb)).tdiv nb = n := by
  rw [max_eq_right (mul_nonneg hn hnb.le)]
  exact Int.mul_tdiv_cancel n hnb.ne'

/-- Claim C2: for every tile column n of plasma_pzpb2desc, the tile rows
receiving a copy task are exactly those in the claimed per-shape range
(general: max(0, n·NB − KU − KL)/NB to min(M−1, (n+1)·NB + KL − 1)/NB;
upper: max(0, n·NB − KU)/NB to min(M−1, (n+1)·NB − 1)/NB; lower: n to
min(M−1, (n+1)·NB + KL − 1)/NB, all with C truncated division), and each
task's extent is clipped to min(MB, M − m·MB) by min(NB, N − n·NB). -/
theorem pzpb2desc_tile_ranges (lda : Int) (A : BandDesc) (t : CopyTask)
    (hnb : 0 < A.nb) :
    t ∈ pzpb2descTasks lda A ↔
      0 ≤ t.n ∧ t.n < A.nt ∧
      (match A.uplo with
       | BandUplo.general =>
           (max 0 (t.n * A.nb - A.ku - A.kl)).tdiv A.nb ≤ t.m ∧
           t.m ≤ (min (A.m - 1) ((t.n + 1) * A.nb + A.kl - 1)).tdiv A.nb
       | BandUplo.upper =>
           (max 0 (t.n * A.nb - A.ku)).tdiv A.nb ≤ t.m ∧
           t.m ≤ (min (A.m - 1) ((t.n + 1) * A.nb - 1)).tdiv A.nb
       | BandUplo.lower =>
           t.n ≤ t.m ∧
           t.m ≤ (min (A.m - 1) ((t.n + 1) * A.nb + A.kl - 1)).tdiv A.nb) ∧
      t.mb = min A.mb (A.m - t.m * A.mb) ∧
      t.nb = min A.nb (A.n - t.n * A.nb) ∧
      t.srcOff = bandA_offset lda A t.m t.n := by
  rw [mem_pzpb2descTasks]
  rcases hu : A.uplo with _ | _ | _
  · simp only [rowRange, hu]
    tauto
  · simp only [rowRange, hu]
    tauto
  · simp only [rowRange, hu]
    constructor
    · rintro ⟨hn0, h2, h3, h4, h5, h6, h7⟩
      rw [lower_mstart_eq A.nb t.n hnb hn0] at h3
      exact ⟨hn0, h2, ⟨h3, h4⟩, h5, h6, h7⟩
    · rintro ⟨hn0, h2, ⟨h3, h4⟩, h5, h6, h7⟩
      rw [lower_mstart_eq A.nb t.n hnb hn0]
      exact ⟨hn0, h2, h3, h4, h5, h6, h7⟩

/-- A concrete general-shape band descriptor used by the witnesses below:
a 4×4 matrix in 2×2 tiles with kl = ku = 1. -/
def sampleDesc : BandDesc :=
  { uplo := BandUplo.general, m := 4, n := 4, mb := 2, nb := 2, kl := 1, ku := 1, nt := 2 }

/-- The copy task the converter submits for tile (0, 0) of sampleDesc with
lda = 7. -/
def sampleTask : CopyTask :=
  { m := 0, n := 0, mb := 2, nb := 2, srcOff := 0 }

/-- Witness for pzpb2desc_tile_ranges: for the concrete descriptor
sampleDesc, tile (0, 0) satisfies the general-shape range bounds, so its
copy task is submitted. -/
theorem pzpb2desc_tile_ranges_witness :
    sampleTask ∈ pzpb2descTasks 7 sampleDesc :=
  (pzpb2desc_tile_ranges 7 sampleDesc sampleTask (by decide)).mpr
    (by simp only [sampleDesc, sampleTask]; decide)

/-- Claim C6: every copy task submitted by the converter carries the source
offset given by the spec's band-addressing formula
stride×(NB×n) + (upper ? KU : 0) + MB×(m−n), a pure function of the
descriptor fields. -/
theorem pzpb2desc_source_offset (lda : Int) (A : BandDesc) (t : CopyTask)
    (ht : t ∈ pzpb2descTasks lda A) :
    t.srcOff = specBandOffset lda A.nb A.ku A.mb (A.uplo == BandUplo.upper) t.m t.n := by
  have h := (mem_pzpb2descTasks lda A t).mp ht
  rw [h.2.2.2.2.2.2]
  by_cases hu : A.uplo = BandUplo.upper <;>
    simp [bandA_offset, specBandOffset, hu]

/-- Witness for pzpb2desc_source_offset at the concrete tile (0, 0) of
sampleDesc. -/
theorem pzpb2desc_source_offset_witness :
    sampleTask.srcOff =
      specBandOffset 7 sampleDesc.nb sampleDesc.ku sampleDesc.mb
        (sampleDesc.uplo == BandUplo.upper) sampleTask.m sampleTask.n :=
  pzpb2desc_source_offset 7 sampleDesc sampleTask (by decide)

/-- Claim C4: when the sequence already carries a failure status, the
converter submits zero copy tasks (so the destination tiles are untouched)
and the sequence keeps its original failure code. -/
theorem pzpb2desc_sequence_failure (lda : Int) (A : BandDesc)
    (seq : PlasmaSeq) (req : PlasmaReq) (hfail : seq.status ≠ PlasmaSuccess) :
    (plasma_pzpb2desc lda A seq req).2.2 = [] ∧
    (plasma_pzpb2desc lda A seq req).1.status = seq.status := by
  unfold plasma_pzpb2desc plasma_request_fail
  simp [hfail]

/-- Witness for pzpb2desc_sequence_failure: a sequence with status -1
yields zero tasks and keeps status -1. -/
theorem pzpb2desc_sequence_failure_witness :
    (plasma_pzpb2desc 7 sampleDesc { status := -1 } { status := 0 }).2.2 = [] ∧
    (plasma_pzpb2desc 7 sampleDesc { status := -1 } { status := 0 }).1.status = -1 :=
  pzpb2desc_sequence_failure 7 sampleDesc { status := -1 } { status := 0 } (by decide)

/-! ## test_zstevx2: verification tail of the ZSTEVX2 test harness -/

/-- The bit-counting loop of test_zstevx2, i = 1; while ((m>>i)) i++;
translated as a recursion on the shrinking shifted value. -/
def evThresholdBitsAux (m i : Nat) : Nat :=
  if m >>> i = 0 then i else evThresholdBitsAux m (i + 1)
termination_by m >>> i
decreasing_by
  rw [Nat.shiftRight_succ]
  exact Nat.div_lt_self (Nat.pos_of_ne_zero (by assumption)) one_lt_two

/-- The value i the bit-counting loop leaves behind, starting from i = 1. -/
def evThresholdBits (m : Nat) : Nat := evThresholdBitsAux m 1

/-- The loop invariant: from start index i the loop returns
max i (floor(log2 m) + 1) for m ≥ 1. -/
theorem evThresholdBitsAux_eq (m : Nat) (hm : 1 ≤ m) :
    ∀ i, evThresholdBitsAux m i = max i (Nat.log 2 m + 1) := by
  intro i
  induction i using evThresholdBitsAux.induct m with
  | case1 i h =>
    rw [evThresholdBitsAux, if_pos h]
    have h2 : m < 2 ^ i := by
      rw [Nat.shiftRight_eq_div_pow] at h
      exact (Nat.div_eq_zero_iff (Nat.pos_pow_of_pos i (by norm_num))).mp h
    have h3 : Nat.log 2 m < i := Nat.log_lt_of_lt_pow (by omega) h2
    exact (Nat.max_eq_left (by omega)).symm
  | case2 i h ih =>
    rw [evThresholdBitsAux, if_neg h, ih]
    have h2 : 2 ^ i ≤ m := by
      rw [Nat.shiftRight_eq_div_pow] at h
      by_contra hc
      exact h ((Nat.div_eq_zero_iff (Nat.pos_pow_of_pos i (by norm_num))).mpr (by omega))
    have h3 : i ≤ Nat.log 2 m :=
      (Nat.pow_le_iff_le_log (by norm_num) (by omega)).mp h2
    rw [Nat.max_eq_right (by omega), Nat.max_eq_right (by omega)]

/-- The bit-counting loop computes floor(log2 m) + 1 (the bit length of m)
for every m ≥ 1. -/
theorem evThresholdBits_eq (m : Nat) (hm : 1 ≤ m) :
    evThresholdBits m = Nat.log 2 m + 1 := by
  rw [evThresholdBits, evThresholdBitsAux_eq m hm 1, Nat.max_eq_right (by omega)]

/-- Concrete evaluations of the loop and of floor/ceil log2 at small sizes,
shared by the eigenvector-threshold theorems. -/
theorem evThresholdBits_four : evThresholdBits 4 = 3 := by
  rw [evThresholdBits_eq 4 (by norm_num),
    Nat.log_eq_of_pow_le_of_lt_pow (show 2 ^ 2 ≤ 4 by norm_num) (show 4 < 2 ^ 3 by norm_num)]

/-- Ceiling log2 of 4 is 2, one less than what the loop computes. -/
theorem clog_two_four : Nat.clog 2 4 = 2 := by
  rw [show (4 : Nat) = 2 ^ 2 by norm_num, Nat.clog_pow 2 2 (by norm_num)]

/-- The running maximum of the eigenvector errors returned by testEVec over
the loop for (i = 0; i < vectorsFound; i++), starting from 0; the testEVec
results themselves (double-precision norm arithmetic) enter as the oracle
vErr. -/
def worstVecError (vectorsFound : Nat) (vErr : Nat → ℚ) : ℚ :=
  (List.range vectorsFound).foldl (fun w i => if w < vErr i then vErr i else w) 0

/-- The observable outcome of the test block of test_zstevx2: the final
PARAM_ERROR value, the final PARAM_SUCCESS flag, and how many times
testEVec was invoked. -/
structure StevxOutcome where
  error : ℚ
  success : Bool
  evecCalls : Nat
deriving DecidableEq

/-- The verification tail of test_zstevx2, translated from the source:
set PARAM_ERROR to worstEigenvalue_error * worstEigenvalue_eps and
PARAM_SUCCESS to (worstEigenvalue_error < 3); if that fails, goto
TestingDone (testEVec is never called); otherwise run testEVec on each of
the vectorsFound vectors tracking the worst error, then set PARAM_ERROR to
that worst error and PARAM_SUCCESS to worst <= (i<<1)*eps with i from the
bit-counting loop. -/
def stevxVerify (m : Nat) (eps evErr evEps : ℚ) (vectorsFound : Nat)
    (vErr : Nat → ℚ) : StevxOutcome :=
  if evErr < 3 then
    { error := worstVecError vectorsFound vErr,
      success := decide (worstVecError vectorsFound vErr ≤
        ((evThresholdBits m <<< 1 : Nat) : ℚ) * eps),
      evecCalls := vectorsFound }
  else
    { error := evErr * evEps, success := false, evecCalls := 0 }

/-- Claim C5, counterexample: at m = 4 (a power of two) with eps = 1 and a
single eigenvector of error 5, the harness sets the pass flag even though
5 exceeds 2*ceil(log2 4)*eps = 4: the bit-counting loop yields 3, not
ceil(log2 4) = 2. -/
theorem stevx_evec_threshold_counterexample :
    (stevxVerify 4 1 0 1 1 (fun _ => 5)).success = true ∧
    (stevxVerify 4 1 0 1 1 (fun _ => 5)).error = 5 ∧
    ¬ ((5 : ℚ) ≤ 2 * (Nat.clog 2 4 : ℚ) * 1) := by
  have h1 : worstVecError 1 (fun _ => (5 : ℚ)) = 5 := by
    simp [worstVecError, List.range_succ]
  have h6 : ((evThresholdBits 4 <<< 1 : Nat) : ℚ) = 6 := by
    rw [evThresholdBits_four]
    norm_num [Nat.shiftLeft_eq]
  refine ⟨?_, ?_, ?_⟩
  · rw [stevxVerify, if_pos (by norm_num)]
    simp only [h1, h6, decide_eq_true_eq]
    norm_num
  · rw [stevxVerify, if_pos (by norm_num)]
    exact h1
  · rw [clog_two_four]
    norm_num

/-- Claim C5, amended: for m ≥ 1, the bit-counting loop computes
floor(log2 m) + 1 (which equals ceil(log2 m) exactly when m ≥ 2 is not a
power of two), and when the eigenvalue check passed the eigenvector
pass/fail flag is true exactly when the worst-case eigenvector error is at
most 2*(floor(log2 m) + 1) machine-epsilon units. -/
theorem stevx_evec_threshold (m : Nat) (hm : 1 ≤ m) (eps evErr evEps : ℚ)
    (vectorsFound : Nat) (vErr : Nat → ℚ) (hpass : evErr < 3) :
    evThresholdBits m = Nat.log 2 m + 1 ∧
    ((stevxVerify m eps evErr evEps vectorsFound vErr).success = true ↔
      worstVecError vectorsFound vErr ≤ 2 * ((Nat.log 2 m : ℚ) + 1) * eps) := by
  refine ⟨evThresholdBits_eq m hm, ?_⟩
  rw [stevxVerify, if_pos hpass]
  simp only [decide_eq_true_eq]
  rw [evThresholdBits_eq m hm, Nat.shiftLeft_eq]
  constructor
  · intro h
    calc worstVecError vectorsFound vErr
        ≤ (((Nat.log 2 m + 1) * 2 ^ 1 : Nat) : ℚ) * eps := h
      _ = 2 * ((Nat.log 2 m : ℚ) + 1) * eps := by push_cast; ring
  · intro h
    calc worstVecError vectorsFound vErr
        ≤ 2 * ((Nat.log 2 m : ℚ) + 1) * eps := h
      _ = (((Nat.log 2 m + 1) * 2 ^ 1 : Nat) : ℚ) * eps := by push_cast; ring

/-- Witness for stevx_evec_threshold at m = 2: the loop value is
floor(log2 2) + 1. -/
theorem stevx_evec_threshold_witness :
    evThresholdBits 2 = Nat.log 2 2 + 1 :=
  (stevx_evec_threshold 2 (by norm_num) 0 0 0 0 (fun _ => 0) (by norm_num)).1

/-- Claim C8: when the worst eigenvalue error reaches 3 epsilon units the
success flag is set false and testEVec is never called; the eigenvector
loop runs (once per found vector) only when the eigenvalue check passed.
Both branches return an outcome normally. -/
theorem stevx_eval_failure_skips_evec (m : Nat) (eps evErr evEps : ℚ)
    (vectorsFound : Nat) (vErr : Nat → ℚ) :
    (3 ≤ evErr →
      (stevxVerify m eps evErr evEps vectorsFound vErr).success = false ∧
      (stevxVerify m eps evErr evEps vectorsFound vErr).evecCalls = 0) ∧
    (evErr < 3 →
      (stevxVerify m eps evErr evEps vectorsFound vErr).evecCalls = vectorsFound) := by
  constructor
  · intro h3
    rw [stevxVerify, if_neg (by linarith)]
    exact ⟨rfl, rfl⟩
  · intro hlt
    rw [stevxVerify, if_pos hlt]

/-- Witness for stevx_eval_failure_skips_evec: with eigenvalue error
exactly 3, the flag is false and zero testEVec calls happen. -/
theorem stevx_eval_failure_skips_evec_witness :
    (stevxVerify 8 1 3 1 5 (fun _ => 0)).success = false ∧
    (stevxVerify 8 1 3 1 5 (fun _ => 0)).evecCalls = 0 :=
  (stevx_eval_failure_skips_evec 8 1 3 1 5 (fun _ => 0)).1 (by norm_num)

/-! ## testMatrix_Kahan: the Kahan tridiagonal test matrix -/

/-- The analytic eigenvalue magnitude computed inside the k-loop of
testMatrix_Kahan: sqrt(4*cos^2(pi*k/(n+1)) + x*x), following the source's
operation order ev = cos(pi*k/(n+1)); ev *= 4*ev; ev += x*x; ev = sqrt(ev). -/
noncomputable def kahanEV (n : Nat) (x : ℝ) (k : Nat) : ℝ :=
  Real.sqrt (Real.cos (Real.pi * k / (n + 1)) * (4 * Real.cos (Real.pi * k / (n + 1))) + x * x)

/-- The evalue array after the k-loop of testMatrix_Kahan (k = 1..n/2,
written here with i = k-1 running over List.range (n/2)): each iteration
stores evalue[k-1] = -ev and then evalue[n+1-k-1] = ev, modelled as
function updates folded over the loop range. -/
noncomputable def kahanEvalue (n : Nat) (x : ℝ) (ev0 : Nat → ℝ) : Nat → ℝ :=
  (List.range (n / 2)).foldl
    (fun ev i =>
      Function.update (Function.update ev i (-(kahanEV n x (i + 1))))
        (n - (i + 1)) (kahanEV n x (i + 1)))
    ev0

/-- The diagonal value testMatrix_Kahan stores at index i:
k = i & 1; if (k) diag[i] = -myDiag; else diag[i] = myDiag. -/
noncomputable def kahanDiagVal (x : ℝ) (i : Nat) : ℝ :=
  if i % 2 = 1 then -x else x

/-- The diag array after testMatrix_Kahan: the loop for (i = 0; i < n-1)
stores kahanDiagVal at each i, and the trailing statement stores it once
more at the final index i = n-1.  (The loop also writes offd; the two
arrays are disjoint, so each is modelled by its own fold.) -/
noncomputable def kahanDiag (n : Nat) (x : ℝ) (d0 : Nat → ℝ) : Nat → ℝ :=
  Function.update
    ((List.range (n - 1)).foldl (fun d i => Function.update d i (kahanDiagVal x i)) d0)
    (n - 1) (kahanDiagVal x (n - 1))

/-- The offd array after testMatrix_Kahan: offd[i] = 1.0 for i = 0..n-2. -/
noncomputable def kahanOffd (n : Nat) (o0 : Nat → ℝ) : Nat → ℝ :=
  (List.range (n - 1)).foldl (fun o i => Function.update o i 1) o0

/-- Evaluating a fold of pointwise updates over List.range: index j holds
v j if j < L and the initial value otherwise. -/
theorem foldl_update_eval (L : Nat) (v : Nat → ℝ) (f0 : Nat → ℝ) (j : Nat) :
    ((List.range L).foldl (fun f i => Function.update f i (v i)) f0) j =
      if j < L then v j else f0 j := by
  induction L with
  | zero => rw [List.range_zero, List.foldl_nil, if_neg (by omega)]
  | succ L ih =>
    rw [List.range_succ, List.foldl_append, List.foldl_cons, List.foldl_nil]
    rw [Function.update_apply]
    by_cases h1 : j = L
    · rw [if_pos h1, if_pos (by omega), h1]
    · rw [if_neg h1, ih]
      by_cases h2 : j < L
      · rw [if_pos h2, if_pos (by omega)]
      · rw [if_neg h2, if_neg (by omega)]

/-- The evalue fold evaluated pointwise, for any loop bound L with
2L ≤ n: indices below L hold the negated magnitudes, indices in
[n-L, n) hold the positive magnitudes, and all other indices keep their
initial value. -/
theorem kahanEvalue_fold (n : Nat) (x : ℝ) :
    ∀ (L : Nat), 2 * L ≤ n → ∀ (ev0 : Nat → ℝ) (j : Nat),
      ((List.range L).foldl
        (fun ev i =>
          Function.update (Function.update ev i (-(kahanEV n x (i + 1))))
            (n - (i + 1)) (kahanEV n x (i + 1)))
        ev0) j =
        if j < L then -(kahanEV n x (j + 1))
        else if n - L ≤ j ∧ j < n then kahanEV n x (n - j)
        else ev0 j := by
  intro L
  induction L with
  | zero =>
    intro hL ev0 j
    rw [List.range_zero, List.foldl_nil, if_neg (by omega), if_neg (by omega)]
  | succ L ih =>
    intro hL ev0 j
    rw [List.range_succ, List.foldl_append, List.foldl_cons, List.foldl_nil]
    rw [Function.update_apply]
    by_cases h1 : j = n - (L + 1)
    · rw [if_pos h1, if_neg (by omega), if_pos (by omega)]
      subst h1
      congr 1
      omega
    · rw [if_neg h1, Function.update_apply]
      by_cases h2 : j = L
      · rw [if_pos h2, if_pos (by omega)]
        subst h2
        rfl
      · rw [if_neg h2, ih (by omega) ev0 j]
        by_cases h3 : j < L
        · rw [if_pos h3, if_pos (by omega)]
        · by_cases h4 : n - L ≤ j ∧ j < n
          · rw [if_neg h3, if_pos h4, if_neg (by omega), if_pos (by omega)]
          · rw [if_neg h3, if_neg h4, if_neg (by omega), if_neg (by omega)]

/-- Pointwise value of the evalue array left by testMatrix_Kahan. -/
theorem kahanEvalue_apply (n : Nat) (x : ℝ) (ev0 : Nat → ℝ) (j : Nat) :
    kahanEvalue n x ev0 j =
      if j < n / 2 then -(kahanEV n x (j + 1))
      else if n - n / 2 ≤ j ∧ j < n then kahanEV n x (n - j)
      else ev0 j :=
  kahanEvalue_fold n x (n / 2) (by omega) ev0 j

/-- The analytic eigenvalue magnitudes are nonnegative. -/
theorem kahanEV_nonneg (n : Nat) (x : ℝ) (k : Nat) : 0 ≤ kahanEV n x k :=
  Real.sqrt_nonneg _

/-- The loop angle pi*k/(n+1) lies in [0, pi/2] for k ≤ n/2. -/
theorem kahan_angle_bounds (n : Nat) (k : Nat) (hk2 : k ≤ n / 2) :
    0 ≤ Real.pi * k / (n + 1) ∧ Real.pi * k / (n + 1) ≤ Real.pi / 2 := by
  have hpi := Real.pi_pos
  have hn1 : (0 : ℝ) < (n : ℝ) + 1 := by positivity
  constructor
  · positivity
  · rw [div_le_div_iff₀ hn1 (by norm_num)]
    have h2k : (2 : ℝ) * k ≤ (n : ℝ) := by exact_mod_cast (show 2 * k ≤ n by omega)
    nlinarith

/-- The analytic magnitudes decrease as k increases over 1..n/2 (cosine
decreases on [0, pi/2] and the angles grow with k). -/
theorem kahanEV_anti (n : Nat) (x : ℝ) (k k' : Nat)
    (hkk : k ≤ k') (hk2 : k' ≤ n / 2) :
    kahanEV n x k' ≤ kahanEV n x k := by
  have hpi := Real.pi_pos
  have h1 := kahan_angle_bounds n k (le_trans hkk hk2)
  have h2 := kahan_angle_bounds n k' hk2
  have hkk' : (k : ℝ) ≤ (k' : ℝ) := by exact_mod_cast hkk
  have hle : Real.pi * k / (n + 1) ≤ Real.pi * k' / (n + 1) := by gcongr
  have hcos : Real.cos (Real.pi * k' / (n + 1)) ≤ Real.cos (Real.pi * k / (n + 1)) :=
    Real.cos_le_cos_of_nonneg_of_le_pi h1.1 (by linarith) hle
  have hc0 : 0 ≤ Real.cos (Real.pi * k' / (n + 1)) :=
    Real.cos_nonneg_of_neg_pi_div_two_le_of_le (by linarith) h2.2
  unfold kahanEV
  apply Real.sqrt_le_sqrt
  nlinarith

/-- Claim C7: for n ≥ 1, testMatrix_Kahan fills the diagonal alternating
+x at even 0-based indices and -x at odd ones, sets every off-diagonal
entry to 1, and for each k = 1..n/2 stores
evalue[k-1] = -sqrt(x^2 + 4 cos^2(pi k/(n+1))) and
evalue[n-k] = +sqrt(x^2 + 4 cos^2(pi k/(n+1))); the stored eigenvalues are
symmetric about zero and ascending (within each half, and every stored
negative entry is below every stored positive entry). -/
theorem kahan_matrix_spec (n : Nat) (x : ℝ) (hn : 1 ≤ n)
    (d0 o0 ev0 : Nat → ℝ) :
    (∀ j, j < n → kahanDiag n x d0 j = if j % 2 = 0 then x else -x) ∧
    (∀ j, j < n - 1 → kahanOffd n o0 j = 1) ∧
    (∀ k, 1 ≤ k → k ≤ n / 2 →
      kahanEvalue n x ev0 (k - 1) = -(kahanEV n x k) ∧
      kahanEvalue n x ev0 (n - k) = kahanEV n x k ∧
      kahanEvalue n x ev0 (k - 1) = -(kahanEvalue n x ev0 (n - k))) ∧
    (∀ k k', 1 ≤ k → k ≤ k' → k' ≤ n / 2 →
      kahanEvalue n x ev0 (k - 1) ≤ kahanEvalue n x ev0 (k' - 1) ∧
      kahanEvalue n x ev0 (n - k') ≤ kahanEvalue n x ev0 (n - k) ∧
      kahanEvalue n x ev0 (k - 1) ≤ kahanEvalue n x ev0 (n - k')) := by
  have hdval : ∀ j, kahanDiagVal x j = if j % 2 = 0 then x else -x := by
    intro j
    unfold kahanDiagVal
    by_cases h : j % 2 = 0
    · rw [if_neg (by omega), if_pos h]
    · rw [if_pos (by omega), if_neg h]
  have hneg : ∀ k, 1 ≤ k → k ≤ n / 2 →
      kahanEvalue n x ev0 (k - 1) = -(kahanEV n x k) := by
    intro k hk1 hk2
    rw [kahanEvalue_apply, if_pos (by omega)]
    congr 2
    omega
  have hpos : ∀ k, 1 ≤ k → k ≤ n / 2 →
      kahanEvalue n x ev0 (n - k) = kahanEV n x k := by
    intro k hk1 hk2
    rw [kahanEvalue_apply, if_neg (by omega), if_pos (by omega)]
    congr 1
    omega
  refine ⟨?_, ?_, ?_, ?_⟩
  · intro j hj
    unfold kahanDiag
    rw [Function.update_apply]
    by_cases h : j = n - 1
    · rw [if_pos h, h, hdval]
    · rw [if_neg h, foldl_update_eval, if_pos (by omega), hdval]
  · intro j hj
    unfold kahanOffd
    exact (foldl_update_eval (n - 1) (fun _ => 1) o0 j).trans (if_pos hj)
  · intro k hk1 hk2
    refine ⟨hneg k hk1 hk2, hpos k hk1 hk2, ?_⟩
    rw [hneg k hk1 hk2, hpos k hk1 hk2]
  · intro k k' hk1 hkk hk2
    have e1 := hneg k hk1 (le_trans hkk hk2)
    have e2 := hneg k' (le_trans hk1 hkk) hk2
    have e3 := hpos k hk1 (le_trans hkk hk2)
    have e4 := hpos k' (le_trans hk1 hkk) hk2
    have hanti := kahanEV_anti n x k k' hkk hk2
    have hn1 := kahanEV_nonneg n x k
    have hn2 := kahanEV_nonneg n x k'
    rw [e1, e2, e3, e4]
    exact ⟨by linarith, hanti, by linarith⟩

/-- Witness for kahan_matrix_spec at n = 2, x = 1, k = 1: the stored pair
evalue[0], evalue[1] is symmetric about zero. -/
theorem kahan_matrix_spec_witness :
    kahanEvalue 2 1 (fun _ => 0) 0 = -(kahanEvalue 2 1 (fun _ => 0) 1) :=
  ((kahan_matrix_spec 2 1 (by norm_num) (fun _ => 0) (fun _ => 0)
    (fun _ => 0)).2.2.1 1 (by norm_num) (by norm_num)).2.2

/-- Claim C9: for odd n the k-loop of testMatrix_Kahan writes only indices
0..n/2-1 and (n+1)/2..n-1 of the evalue array, so the middle entry
evalue[(n-1)/2] keeps whatever value it held before the call. -/
theorem kahan_middle_untouched (n : Nat) (x : ℝ) (ev0 : Nat → ℝ)
    (hodd : n % 2 = 1) :
    (∀ j, ¬ j < n / 2 → ¬ ((n + 1) / 2 ≤ j ∧ j < n) →
      kahanEvalue n x ev0 j = ev0 j) ∧
    kahanEvalue n x ev0 ((n - 1) / 2) = ev0 ((n - 1) / 2) := by
  have frame : ∀ j, ¬ j < n / 2 → ¬ ((n + 1) / 2 ≤ j ∧ j < n) →
      kahanEvalue n x ev0 j = ev0 j := by
    intro j h1 h2
    rw [kahanEvalue_apply, if_neg h1, if_neg (by omega)]
  exact ⟨frame, frame _ (by omega) (by omega)⟩

/-- Witness for kahan_middle_untouched at n = 3: the middle entry
evalue[1] keeps its initial value 5. -/
theorem kahan_middle_untouched_witness :
    kahanEvalue 3 1 (fun _ => (5 : ℝ)) 1 = 5 :=
  (kahan_middle_untouched 3 1 (fun _ => (5 : ℝ)) (by norm_num)).2

/-! ## testEVec: array accesses of the eigenvector check -/

/-- The three arrays testEVec indexes: the matrix diagonal, the
off-diagonal, and the eigenvector under test. -/
inductive EArr where
  | diag | offd | X
deriving DecidableEq

/-- The reads testEVec performs, in source order: the first-row product
diag[0]*X[0] + offd[0]*X[1], the last-row product
offd[n-2]*X[n-2] + diag[n-1]*X[n-1], then the loop
for (i = 1; i < n-1; i++) reading offd[i-1], X[i-1], diag[i], X[i],
offd[i], X[i+1].  Indices are integers so that a negative C subscript
(such as offd[n-2] for n = 1) is representable. -/
def testEVecReads (n : Int) : List (EArr × Int) :=
  [(EArr.diag, 0), (EArr.X, 0), (EArr.offd, 0), (EArr.X, 1),
   (EArr.offd, n - 2), (EArr.X, n - 2), (EArr.diag, n - 1), (EArr.X, n - 1)]
  ++ (intRange 1 (n - 2)).flatMap (fun i =>
      [(EArr.offd, i - 1), (EArr.X, i - 1), (EArr.diag, i), (EArr.X, i),
       (EArr.offd, i), (EArr.X, i + 1)])

/-- The lengths the test harness allocates for the arrays it hands to
testEVec with dimension n: diag and X have n entries, offd has n-1. -/
def testEVecArrLen (n : Int) : EArr → Int
  | EArr.diag => n
  | EArr.offd => n - 1
  | EArr.X => n

/-- A read is in bounds when its index is nonnegative and below the
array's length. -/
def inBoundsRead (n : Int) (a : EArr × Int) : Prop :=
  0 ≤ a.2 ∧ a.2 < testEVecArrLen n a.1

/-- Claim C10: for n ≥ 2 every read testEVec performs is in bounds, and
for n < 2 the unconditional pre-loop read offd[n-2] (offd[-1] when n = 1)
falls outside the arrays. -/
theorem testEVec_bounds (n : Int) :
    (2 ≤ n → ∀ a ∈ testEVecReads n, inBoundsRead n a) ∧
    (n < 2 → (EArr.offd, n - 2) ∈ testEVecReads n ∧
      ¬ inBoundsRead n (EArr.offd, n - 2)) := by
  constructor
  · intro hn a ha
    unfold testEVecReads at ha
    rw [List.mem_append] at ha
    rcases ha with ha | ha
    · unfold inBoundsRead testEVecArrLen
      fin_cases ha <;> constructor <;> simp <;> omega
    · rw [List.mem_flatMap] at ha
      obtain ⟨i, hi, hmem⟩ := ha
      rw [mem_intRange] at hi
      unfold inBoundsRead testEVecArrLen
      fin_cases hmem <;> constructor <;> simp <;> omega
  · intro hn
    constructor
    · unfold testEVecReads
      rw [List.mem_append]
      left
      simp
    · unfold inBoundsRead testEVecArrLen
      rintro ⟨h1, h2⟩
      omega

/-- Witness for testEVec_bounds at n = 2: every read is in bounds, and in
particular the pre-loop read X[1] is. -/
theorem testEVec_bounds_witness : inBoundsRead 2 (EArr.X, 1) :=
  (testEVec_bounds 2).1 (by norm_num) (EArr.X, 1) (by decide)
